import Mathlib

/-!
Shallow embedding of the `csv_to_mtx` converter (`src/main.rs`) and proofs of
the specification claims about it.

Modelling conventions:

* An `f32` value is represented by its 32-bit pattern (`F32.bits`).  The
  program only ever compares a float against `0.0`, stores it, and writes its
  4 little-endian bytes; all three operations are functions of the bit
  pattern.  IEEE-754 equality with `0.0` holds exactly for the two zero
  patterns `0x00000000` (+0.0) and `0x80000000` (-0.0); every NaN pattern
  compares unequal.
* A CSV field is abstracted to the outcomes of the only two operations the
  program applies to it: `str::parse::<i32>` and `str::parse::<f32>`
  (standard-library collaborators), each an `Option`.
* The `csv` crate's records iterator in its default (non-flexible) mode
  yields `Err` for any record whose field count differs from the first record
  read; the program drops those with `filter_map(Result::ok)`.
  `csv_ok_records` embeds that combination: it keeps exactly the rows whose
  length equals the expected length set by the first record.
* Host byte order (`cfg!(target_endian = "little")`) is a `Bool` parameter;
  `bytemuck::cast_slice` is the concatenation of the elements' native-order
  bytes.  The `BufWriter`/`GzEncoder` transport wrappers are out of scope
  (the spec treats compression as a pure transport wrapper); the model
  produces the logical byte stream handed to the writer.
-/

namespace CsvToMtx

/-- A 32-bit IEEE-754 float, represented by its bit pattern. -/
structure F32 where
  bits : Nat
deriving DecidableEq, Repr

/-- The Rust comparison `value == 0.0f32`: true exactly for the bit patterns
of +0.0 and -0.0; NaN and every nonzero value compare unequal to `0.0`. -/
def f32_eq_zero (x : F32) : Bool :=
  x.bits == 0 || x.bits == 0x80000000

/-- A CSV field, abstracted to the results of the two standard-library parses
the program applies to fields: `parse::<i32>` and `parse::<f32>`. -/
structure Field where
  asI32 : Option Int
  asF32 : Option F32
deriving DecidableEq, Repr

/-- A CSV record: its list of fields. -/
abbrev Row := List Field

/-- The `(i32, i32, f32)` tuples produced by the reader. -/
abbrev Triple := Int × Int × F32

/-- The rows the `csv` crate's records iterator yields as `Ok`, in default
(non-flexible) mode, after the first record fixed the expected field count:
records with any other field count yield `Err(UnequalLengths)` and are
dropped by the program's `filter_map(Result::ok)`. -/
def csv_ok_records (expected_len : Nat) (rows : List Row) : List Row :=
  rows.filter (fun r => r.length == expected_len)

/-- The body of the 3-column loop in `read_csv`: parse fields 0, 1, 2 as
`(i32, i32, f32)`; push the tuple only when all three parses succeed.
Rows reaching this point always have exactly 3 fields. -/
def sparse_parse_row (r : Row) : Option Triple :=
  match r with
  | [o, d, v] =>
    match o.asI32, d.asI32, v.asF32 with
    | some origin, some destination, some value => some (origin, destination, value)
    | _, _, _ => none
  | _ => none

/-- The per-row body of `read_rectangular_csv_from_records`: parse the origin
from field 0 (row skipped when it fails); for each remaining field at
position `col_idx`, emit `(origin, destinations[col_idx], value)` when
`col_idx < destinations.len()`, the field parses as `f32`, and the value is
not equal to `0.0`. -/
def rect_parse_row (destinations : List Int) (record : Row) : List Triple :=
  match record with
  | [] => []
  | origin_field :: rest =>
    match origin_field.asI32 with
    | some origin =>
      (rest.enum).filterMap (fun p =>
        if h : p.1 < destinations.length then
          match (p.2).asF32 with
          | some value =>
            if f32_eq_zero value then none
            else some (origin, destinations.get ⟨p.1, h⟩, value)
          | none => none
        else none)
    | none => []

/-- `read_rectangular_csv_from_records` from `src/main.rs`: the header row,
first field excluded, is parsed into the destination list (non-parsing
entries dropped); an empty destination list yields no triples; every
remaining `Ok` record is processed by `rect_parse_row`. -/
def read_rectangular_csv_from_records (header_record : Row) (records : List Row) : List Triple :=
  let destinations : List Int := (header_record.drop 1).filterMap (fun s => s.asI32)
  if destinations.isEmpty then []
  else records.flatMap (rect_parse_row destinations)

/-- `read_csv` from `src/main.rs`, over the records of the input file (the
`csv` reader is built with `has_headers(false)`).  The first record decides
the format: exactly 3 fields selects the sparse 3-column path (the first
record itself is parsed, then every later `Ok` record); any other field
count selects the rectangular path. -/
def read_csv (rows : List Row) : List Triple :=
  match rows with
  | [] => []
  | first_record :: records =>
    if first_record.length == 3 then
      (sparse_parse_row first_record).toList
        ++ (csv_ok_records first_record.length records).filterMap sparse_parse_row
    else
      read_rectangular_csv_from_records first_record
        (csv_ok_records first_record.length records)

/-- The `zone_index` HashMap of `build_matrix`, as a lookup function: the map
is collected from `(zone, rank)` pairs in list order, so for a duplicated
zone id the later insertion overwrites the earlier one and the lookup
returns the rank of the last occurrence. -/
def zone_index (all_zones : List Int) (z : Int) : Option Nat :=
  (all_zones.enum).foldl (fun acc p => if p.2 == z then some p.1 else acc) none

/-- The zone-authority branch of `get_all_zones` (`arg.len() > 3`): the zone
file is read with a default `csv::Reader`, whose `has_headers(true)` skips
the first record and whose non-flexible mode drops records of a different
field count; field 0 of each remaining record is parsed as `i32`
(non-parsing records dropped) and the list is sorted ascending, without
deduplication. -/
def get_all_zones_file (rows : List Row) : List Int :=
  match rows with
  | [] => []
  | header :: body =>
    let zones : List Int :=
      (csv_ok_records header.length body).filterMap (fun r => r.head? >>= fun f => f.asI32)
    List.insertionSort (fun a b => a ≤ b) zones

/-- The data branch of `get_all_zones`: collect every origin and destination
of the triples into a `HashSet` (set union; iteration order immaterial) and
sort the distinct ids ascending. -/
def get_all_zones_data (data : List Triple) : List Int :=
  let zones : List Int := (data.flatMap (fun t => [t.1, t.2.1])).dedup
  List.insertionSort (fun a b => a ≤ b) zones

/-- `get_all_zones` from `src/main.rs`; the optional third CLI argument is
modelled as `Option` of the zone file's records. -/
def get_all_zones (zone_file_rows : Option (List Row)) (data : List Triple) : List Int :=
  match zone_file_rows with
  | some rows => get_all_zones_file rows
  | none => get_all_zones_data data

/-- The loop body of `build_matrix`: look up both ranks; when both resolve,
overwrite `matrix[origin_idx * zone_count + destination_idx]`; otherwise
leave the matrix unchanged. -/
def apply_triple (zone_count : Nat) (zidx : Int → Option Nat) (matrix : List F32)
    (t : Triple) : List F32 :=
  match zidx t.1, zidx t.2.1 with
  | some origin_idx, some destination_idx =>
    matrix.set (origin_idx * zone_count + destination_idx) t.2.2
  | _, _ => matrix

/-- `build_matrix` from `src/main.rs`: start from `vec![0.0f32; n*n]`
(bit pattern 0) and fold the triples in sequence order. -/
def build_matrix (data : List Triple) (all_zones : List Int) : List F32 :=
  let zone_count := all_zones.length
  data.foldl (apply_triple zone_count (zone_index all_zones))
    (List.replicate (zone_count * zone_count) (F32.mk 0))

/-- The 4 little-endian bytes of a 32-bit value. -/
def u32_le_bytes (n : Nat) : List Nat :=
  [n % 256, n / 256 % 256, n / 65536 % 256, n / 16777216 % 256]

/-- `i32::to_le_bytes`: the little-endian bytes of the two's-complement
pattern. -/
def i32_le_bytes (z : Int) : List Nat :=
  u32_le_bytes (z % (2 ^ 32)).toNat

/-- The native-order bytes of a 32-bit pattern on a host of the given byte
order (big-endian order is the reverse of little-endian order). -/
def native_u32_bytes (is_little_endian : Bool) (n : Nat) : List Nat :=
  if is_little_endian then u32_le_bytes n else (u32_le_bytes n).reverse

/-- The raw in-memory bytes of an `i32`, as `bytemuck::cast_slice` exposes
them. -/
def i32_native_bytes (is_little_endian : Bool) (z : Int) : List Nat :=
  native_u32_bytes is_little_endian (z % (2 ^ 32)).toNat

/-- `f32::to_le_bytes`: the little-endian bytes of the bit pattern. -/
def f32_le_bytes (v : F32) : List Nat :=
  u32_le_bytes v.bits

/-- The raw in-memory bytes of an `f32`, as `bytemuck::cast_slice` exposes
them. -/
def f32_native_bytes (is_little_endian : Bool) (v : F32) : List Nat :=
  native_u32_bytes is_little_endian v.bits

/-- The six 4-byte header fields `write_mtx_file` writes first, each with
`to_le_bytes`: magic number, version, type, dimension count, and the two
index sizes (`zone_count = all_zones.len() as i32`). -/
def mtx_header_bytes (zone_count : Int) : List Nat :=
  u32_le_bytes 0xC4D4F1B2 ++ i32_le_bytes 1 ++ i32_le_bytes 1 ++ i32_le_bytes 2
    ++ i32_le_bytes zone_count ++ i32_le_bytes zone_count

/-- `write_mtx_file` from `src/main.rs`, as the logical byte stream handed to
the writer (raw or gzip transport is a wrapper around this stream).  On a
little-endian host the zone and matrix buffers are reinterpreted as raw
native bytes with `bytemuck::cast_slice`; otherwise each element is
converted with `to_le_bytes` (the `rayon` parallel map preserves element
order, so it is modelled sequentially). -/
def write_mtx_file (is_little_endian : Bool) (all_zones : List Int) (matrix : List F32) :
    List Nat :=
  let zone_count : Int := (all_zones.length : Int)
  let header := mtx_header_bytes zone_count
  if is_little_endian then
    let origin_zone_bytes := all_zones.flatMap (i32_native_bytes is_little_endian)
    let matrix_bytes := matrix.flatMap (f32_native_bytes is_little_endian)
    header ++ origin_zone_bytes ++ origin_zone_bytes ++ matrix_bytes
  else
    let origin_zone_bytes := all_zones.flatMap i32_le_bytes
    let matrix_bytes := matrix.flatMap f32_le_bytes
    header ++ origin_zone_bytes ++ origin_zone_bytes ++ matrix_bytes

/-- Modelled from the spec (§4.2): the zone-id-to-rank index "maps each id to
the rank of its last occurrence" — the first hit when scanning the zone list
from the end. -/
def spec_last_occurrence_rank (all_zones : List Int) (z : Int) : Option Nat :=
  ((all_zones.enum.reverse).find? (fun p => p.2 == z)).map Prod.fst

/-- A field whose text parses as an integer zone id (the converter never
consults the float parse of a field it reads as an id, so that component is
left `none` here). -/
def fieldI (z : Int) : Field := ⟨some z, none⟩

/-- A field whose text parses as a float only (e.g. "2.5"). -/
def fieldF (v : F32) : Field := ⟨none, some v⟩

/-- A field whose text parses as neither an integer nor a float. -/
def fieldNone : Field := ⟨none, none⟩

-- Smoke tests of the embedding on the spec's end-to-end example:
-- sparse rows 1,1,2.0 / 1,2,0.0 / 2,1,3.0 give zone set 1,2 and matrix
-- rows (2.0, 0.0), (3.0, 0.0); 2.0 has bits 0x40000000, 3.0 has 0x40400000.
example :
    read_csv [[fieldI 1, fieldI 1, fieldF ⟨0x40000000⟩],
              [fieldI 1, fieldI 2, fieldF ⟨0⟩],
              [fieldI 2, fieldI 1, fieldF ⟨0x40400000⟩]] =
      [(1, 1, ⟨0x40000000⟩), (1, 2, ⟨0⟩), (2, 1, ⟨0x40400000⟩)] := by decide

example :
    get_all_zones none [(1, 1, ⟨0x40000000⟩), (1, 2, ⟨0⟩), (2, 1, ⟨0x40400000⟩)] =
      [1, 2] := by decide

example :
    build_matrix [(1, 1, ⟨0x40000000⟩), (1, 2, ⟨0⟩), (2, 1, ⟨0x40400000⟩)] [1, 2] =
      [⟨0x40000000⟩, ⟨0⟩, ⟨0x40400000⟩, ⟨0⟩] := by decide

example :
    (write_mtx_file true [1, 2] [⟨0x40000000⟩, ⟨0⟩, ⟨0x40400000⟩, ⟨0⟩]).length =
      24 + 8 + 8 + 16 := by decide

example :
    read_csv [[fieldNone, fieldI 5],
              [fieldI 1, fieldF ⟨0x40000000⟩]] =
      [(1, 5, ⟨0x40000000⟩)] := by decide

theorem length_flatMap_of_const_length {α : Type} (f : α → List Nat) (k : Nat)
    (hf : ∀ a, (f a).length = k) (l : List α) :
    (l.flatMap f).length = k * l.length := by
  induction l with
  | nil => simp
  | cons a l ih =>
    rw [List.flatMap_cons, List.length_append, hf, ih, List.length_cons, Nat.mul_succ,
      Nat.add_comm]

theorem length_u32_le_bytes (n : Nat) : (u32_le_bytes n).length = 4 := rfl

theorem length_i32_le_bytes (z : Int) : (i32_le_bytes z).length = 4 := rfl

theorem length_f32_le_bytes (v : F32) : (f32_le_bytes v).length = 4 := rfl

theorem i32_native_bytes_true : i32_native_bytes true = i32_le_bytes := rfl

theorem f32_native_bytes_true : f32_native_bytes true = f32_le_bytes := rfl

/-- C6: the big-endian serialization path (per-element `to_le_bytes`
conversion of the zone and matrix buffers) produces the same byte stream as
the little-endian path's raw-byte reinterpretation of the buffers: the two
paths are byte-for-byte equivalent for every `ZoneSet` and `DenseMatrix`. -/
theorem write_mtx_file_endian_eq (all_zones : List Int) (matrix : List F32) :
    write_mtx_file true all_zones matrix = write_mtx_file false all_zones matrix := by
  simp only [write_mtx_file, if_true, if_false, Bool.false_eq_true, i32_native_bytes_true,
    f32_native_bytes_true]

/-- C1: the serializer emits exactly, in order, the 24-byte little-endian
header (magic `0xC4D4F1B2`, version 1, type 1, dimension count 2, and two
index-size fields both equal to `n`), then the `ZoneSet` as `n` little-endian
4-byte signed integers, the same `ZoneSet` again, and the `n*n` matrix values
in row-major order as little-endian 4-byte floats (4·n·n bytes, i.e. exactly
`n*n` floats). -/
theorem write_mtx_file_layout (all_zones : List Int) (matrix : List F32)
    (hm : matrix.length = all_zones.length * all_zones.length) :
    write_mtx_file true all_zones matrix =
      mtx_header_bytes (all_zones.length : Int)
        ++ all_zones.flatMap i32_le_bytes
        ++ all_zones.flatMap i32_le_bytes
        ++ matrix.flatMap f32_le_bytes
    ∧ mtx_header_bytes (all_zones.length : Int) =
        u32_le_bytes 0xC4D4F1B2 ++ i32_le_bytes 1 ++ i32_le_bytes 1 ++ i32_le_bytes 2
          ++ i32_le_bytes (all_zones.length : Int) ++ i32_le_bytes (all_zones.length : Int)
    ∧ (mtx_header_bytes (all_zones.length : Int)).length = 24
    ∧ (all_zones.flatMap i32_le_bytes).length = 4 * all_zones.length
    ∧ (matrix.flatMap f32_le_bytes).length = 4 * (all_zones.length * all_zones.length) := by
  refine ⟨?_, rfl, ?_, ?_, ?_⟩
  · simp only [write_mtx_file, if_true, i32_native_bytes_true, f32_native_bytes_true,
      List.append_assoc]
  · simp [mtx_header_bytes, u32_le_bytes, i32_le_bytes]
  · exact length_flatMap_of_const_length i32_le_bytes 4 length_i32_le_bytes all_zones
  · rw [length_flatMap_of_const_length f32_le_bytes 4 length_f32_le_bytes matrix, hm]

/-- Witness for C1 at the spec's round-trip-shape example: three zones
`10, 20, 30` and a 9-float matrix. -/
theorem write_mtx_file_layout_witness :
    (List.replicate 9 (F32.mk 0x3F800000)).length =
        List.length ([10, 20, 30] : List Int) * List.length ([10, 20, 30] : List Int)
    ∧ write_mtx_file true [10, 20, 30] (List.replicate 9 (F32.mk 0x3F800000)) =
        mtx_header_bytes (List.length ([10, 20, 30] : List Int) : Int)
          ++ ([10, 20, 30] : List Int).flatMap i32_le_bytes
          ++ ([10, 20, 30] : List Int).flatMap i32_le_bytes
          ++ (List.replicate 9 (F32.mk 0x3F800000)).flatMap f32_le_bytes :=
  ⟨by decide,
    (write_mtx_file_layout [10, 20, 30] (List.replicate 9 (F32.mk 0x3F800000)) (by decide)).1⟩

theorem read_csv_cons_sparse (first_record : Row) (records : List Row)
    (h : first_record.length = 3) :
    read_csv (first_record :: records) =
      (sparse_parse_row first_record).toList
        ++ (csv_ok_records 3 records).filterMap sparse_parse_row := by
  simp [read_csv, h]

theorem read_csv_cons_rect (first_record : Row) (records : List Row)
    (h : first_record.length ≠ 3) :
    read_csv (first_record :: records) =
      read_rectangular_csv_from_records first_record
        (csv_ok_records first_record.length records) := by
  simp [read_csv, h]

/-- C2: the reader treats the file as sparse-triple format if and only if its
first record has exactly 3 fields — and then parses the first record and
every later `Ok` record as `(i32, i32, f32)` — while any other first-record
field count sends the whole file down the rectangular path, regardless of
later row shapes. -/
theorem read_csv_format_detection (first_record : Row) (records : List Row) :
    (first_record.length = 3 →
      read_csv (first_record :: records) =
        (sparse_parse_row first_record).toList
          ++ (csv_ok_records 3 records).filterMap sparse_parse_row)
    ∧ (first_record.length ≠ 3 →
      read_csv (first_record :: records) =
        read_rectangular_csv_from_records first_record
          (csv_ok_records first_record.length records)) :=
  ⟨read_csv_cons_sparse first_record records, read_csv_cons_rect first_record records⟩

/-- Witness for C2: a 3-field first record selects the sparse path even when
a later record has a different shape. -/
theorem read_csv_format_detection_witness :
    read_csv [[fieldI 1, fieldI 2, fieldF (F32.mk 0x40000000)], [fieldI 9]] =
      (sparse_parse_row [fieldI 1, fieldI 2, fieldF (F32.mk 0x40000000)]).toList
        ++ (csv_ok_records 3 [[fieldI 9]]).filterMap sparse_parse_row :=
  (read_csv_format_detection [fieldI 1, fieldI 2, fieldF (F32.mk 0x40000000)] [[fieldI 9]]).1
    (by decide)

/-- C5: in sparse-triple mode, a row that fails to parse — because its field
count is not 3 (the csv layer yields `Err` for it) or because one of its
three fields fails its numeric parse — is silently skipped: deleting it from
the input leaves the reader's output unchanged, so every remaining
well-formed row still produces its Triple and nothing aborts (the reader is
a total function). -/
theorem read_csv_sparse_skips_bad_rows (first_record bad : Row) (pre post : List Row)
    (h3 : first_record.length = 3)
    (hbad : bad.length ≠ 3 ∨ sparse_parse_row bad = none) :
    read_csv (first_record :: (pre ++ bad :: post)) =
      read_csv (first_record :: (pre ++ post)) := by
  rw [read_csv_cons_sparse first_record _ h3, read_csv_cons_sparse first_record _ h3]
  unfold csv_ok_records
  rw [List.filter_append, List.filter_append, List.filter_cons]
  by_cases hlen : bad.length = 3
  · have hparse : sparse_parse_row bad = none := by
      rcases hbad with h | h
      · exact absurd hlen h
      · exact h
    simp [hlen, hparse, List.filterMap_append]
  · simp [hlen]

/-- Witness for C5: a sparse row whose origin field does not parse is
dropped, and the well-formed rows around it are unaffected. -/
theorem read_csv_sparse_skips_bad_rows_witness :
    read_csv [[fieldI 1, fieldI 2, fieldF (F32.mk 0x40000000)],
              [fieldNone, fieldI 2, fieldF (F32.mk 0x41100000)],
              [fieldI 2, fieldI 1, fieldF (F32.mk 0x40400000)]] =
      read_csv [[fieldI 1, fieldI 2, fieldF (F32.mk 0x40000000)],
                [fieldI 2, fieldI 1, fieldF (F32.mk 0x40400000)]] :=
  read_csv_sparse_skips_bad_rows [fieldI 1, fieldI 2, fieldF (F32.mk 0x40000000)]
    [fieldNone, fieldI 2, fieldF (F32.mk 0x41100000)] []
    [[fieldI 2, fieldI 1, fieldF (F32.mk 0x40400000)]] (by decide) (Or.inr (by decide))

theorem rect_parse_row_nonzero (destinations : List Int) (record : Row) (t : Triple)
    (ht : t ∈ rect_parse_row destinations record) : f32_eq_zero t.2.2 = false := by
  rcases record with _ | ⟨origin_field, rest⟩
  · simp [rect_parse_row] at ht
  · rcases horig : origin_field.asI32 with _ | origin
    · simp [rect_parse_row, horig] at ht
    · simp only [rect_parse_row, horig, List.mem_filterMap] at ht
      obtain ⟨p, _, hf⟩ := ht
      by_cases hlt : p.1 < destinations.length
      · rw [dif_pos hlt] at hf
        rcases hv : (p.2).asF32 with _ | value
        · rw [hv] at hf; simp at hf
        · rw [hv] at hf
          dsimp only at hf
          by_cases hz : f32_eq_zero value
          · rw [if_pos hz] at hf; cases hf
          · rw [if_neg hz] at hf
            injection hf with hf
            subst hf
            simpa using hz
      · rw [dif_neg hlt] at hf; cases hf

theorem read_rectangular_nonzero (header_record : Row) (records : List Row) (t : Triple)
    (ht : t ∈ read_rectangular_csv_from_records header_record records) :
    f32_eq_zero t.2.2 = false := by
  simp only [read_rectangular_csv_from_records] at ht
  split at ht
  · cases ht
  · rw [List.mem_flatMap] at ht
    obtain ⟨record, _, hrec⟩ := ht
    exact rect_parse_row_nonzero _ record t hrec

/-- C3: zero-suppression asymmetry.  In rectangular mode no emitted Triple
carries a value equal to `0.0` (zero cells are never materialized), while in
sparse mode every row whose three fields parse — the value being `0.0`
included — produces its Triple in the output. -/
theorem zero_suppression_asymmetry :
    (∀ (first_record : Row) (records : List Row) (t : Triple),
      first_record.length ≠ 3 → t ∈ read_csv (first_record :: records) →
      f32_eq_zero t.2.2 = false)
    ∧ (∀ (first_record : Row) (records : List Row) (r : Row) (t : Triple),
      first_record.length = 3 →
      (r = first_record ∨ r ∈ csv_ok_records 3 records) →
      sparse_parse_row r = some t →
      t ∈ read_csv (first_record :: records)) := by
  constructor
  · intro first_record records t hne ht
    rw [read_csv_cons_rect first_record records hne] at ht
    exact read_rectangular_nonzero _ _ _ ht
  · intro first_record records r t h3 hr hparse
    rw [read_csv_cons_sparse first_record records h3, List.mem_append]
    rcases hr with rfl | hr
    · left; simp [hparse]
    · right; exact List.mem_filterMap.mpr ⟨r, hr, hparse⟩

/-- Witness for C3: a sparse row with value `0.0` produces a Triple, and a
rectangular Triple always carries a nonzero value. -/
theorem zero_suppression_asymmetry_witness :
    ((1 : Int), (2 : Int), F32.mk 0) ∈ read_csv [[fieldI 1, fieldI 2, fieldF (F32.mk 0)]]
    ∧ f32_eq_zero (((1 : Int), (5 : Int), F32.mk 0x40000000) : Triple).2.2 = false :=
  ⟨zero_suppression_asymmetry.2 [fieldI 1, fieldI 2, fieldF (F32.mk 0)] [] _ _
      (by decide) (Or.inl rfl) (by decide),
   zero_suppression_asymmetry.1 [fieldNone, fieldI 5] [[fieldI 1, fieldF (F32.mk 0x40000000)]]
      _ (by decide) (by decide)⟩

/-- C10: the zero-suppression test is IEEE-754 comparison with `0.0`: a
rectangular cell parsing to a NaN pattern (`0x7FC00000`) is kept (NaN is
unequal to `0.0`), a cell parsing to `-0.0` (`0x80000000`) is suppressed
exactly like `+0.0`, and in sparse mode every parsed value — NaN and `-0.0`
included — is kept. -/
theorem zero_test_ieee_semantics (origin destination : Int) (v : F32) :
    read_csv [[fieldNone, fieldI destination], [fieldI origin, fieldF v]] =
      (if f32_eq_zero v then [] else [(origin, destination, v)])
    ∧ f32_eq_zero (F32.mk 0x7FC00000) = false
    ∧ f32_eq_zero (F32.mk 0x80000000) = true
    ∧ f32_eq_zero (F32.mk 0) = true
    ∧ read_csv [[fieldI origin, fieldI destination, fieldF v]] = [(origin, destination, v)] := by
  refine ⟨?_, by decide, by decide, by decide, ?_⟩
  · by_cases hz : f32_eq_zero v
    · simp [read_csv, read_rectangular_csv_from_records, rect_parse_row, csv_ok_records,
        fieldI, fieldF, fieldNone, hz]
    · simp [read_csv, read_rectangular_csv_from_records, rect_parse_row, csv_ok_records,
        fieldI, fieldF, fieldNone, hz]
  · simp [read_csv, sparse_parse_row, csv_ok_records, fieldI, fieldF]

theorem foldl_overwrite_eq_find_rev (z : Int) (l : List (Nat × Int)) (a : Option Nat) :
    l.foldl (fun acc p => if p.2 == z then some p.1 else acc) a =
      (match l.reverse.find? (fun p => p.2 == z) with
        | some p => some p.1
        | none => a) := by
  induction l using List.reverseRecOn with
  | nil => rfl
  | append_singleton l p ih =>
    rw [List.foldl_append, List.foldl_cons, List.foldl_nil]
    simp only [List.reverse_append, List.reverse_cons, List.reverse_nil, List.nil_append,
      List.singleton_append]
    cases hp : (p.2 == z) with
    | true => simp [List.find?_cons, hp]
    | false =>
      simp only [List.find?_cons, hp, Bool.false_eq_true, if_false]
      exact ih

theorem zone_index_eq_spec (all_zones : List Int) (z : Int) :
    zone_index all_zones z = spec_last_occurrence_rank all_zones z := by
  unfold zone_index spec_last_occurrence_rank
  rw [foldl_overwrite_eq_find_rev]
  cases h : all_zones.enum.reverse.find? (fun p => p.2 == z) <;> simp [h]

theorem zone_index_lt_length (all_zones : List Int) (z : Int) (i : Nat)
    (h : zone_index all_zones z = some i) : i < all_zones.length := by
  rw [zone_index_eq_spec] at h
  unfold spec_last_occurrence_rank at h
  rcases hf : all_zones.enum.reverse.find? (fun p => p.2 == z) with _ | p
  · rw [hf] at h; simp at h
  · rw [hf] at h
    simp only [Option.map_some'] at h
    have hmem : p ∈ all_zones.enum.reverse := List.mem_of_find?_eq_some hf
    rw [List.mem_reverse] at hmem
    rcases p with ⟨idx, zz⟩
    have hm := List.mem_enumFrom hmem
    injection h with h
    omega

theorem zone_index_eq_none_of_not_mem (all_zones : List Int) (z : Int)
    (h : z ∉ all_zones) : zone_index all_zones z = none := by
  rw [zone_index_eq_spec]
  unfold spec_last_occurrence_rank
  rcases hf : all_zones.enum.reverse.find? (fun p => p.2 == z) with _ | p
  · rw [hf]; rfl
  · exfalso
    have hp := List.find?_some hf
    have hmem : p ∈ all_zones.enum.reverse := List.mem_of_find?_eq_some hf
    rw [List.mem_reverse] at hmem
    rcases p with ⟨idx, zz⟩
    have hm := List.mem_enumFrom hmem
    have hzz : zz = z := by simpa using hp
    have hzmem : zz ∈ all_zones := by
      rw [hm.2.2]
      exact List.getElem_mem _
    exact h (hzz ▸ hzmem)

theorem length_foldl_apply_triple (n : Nat) (zidx : Int → Option Nat) (data : List Triple)
    (m : List F32) : (data.foldl (apply_triple n zidx) m).length = m.length := by
  induction data generalizing m with
  | nil => rfl
  | cons t data ih =>
    rw [List.foldl_cons, ih]
    cases h1 : zidx t.1 <;> cases h2 : zidx t.2.1 <;> simp [apply_triple, h1, h2]

theorem build_matrix_length (data : List Triple) (all_zones : List Int) :
    (build_matrix data all_zones).length = all_zones.length * all_zones.length := by
  unfold build_matrix
  rw [length_foldl_apply_triple, List.length_replicate]

theorem build_matrix_concat (data : List Triple) (t : Triple) (all_zones : List Int) :
    build_matrix (data ++ [t]) all_zones =
      apply_triple all_zones.length (zone_index all_zones) (build_matrix data all_zones) t := by
  unfold build_matrix
  rw [List.foldl_append, List.foldl_cons, List.foldl_nil]

theorem rowmajor_lt (n a c b d : Nat) (hc : c < n) (hab : a < b) :
    a * n + c < b * n + d :=
  calc a * n + c < a * n + n := Nat.add_lt_add_left hc (a * n)
    _ = (a + 1) * n := by ring
    _ ≤ b * n := Nat.mul_le_mul hab (le_refl n)
    _ ≤ b * n + d := Nat.le_add_right _ _

theorem rowmajor_index_inj (n i j i' j' : Nat) (hj : j < n) (hj' : j' < n)
    (h : i * n + j = i' * n + j') : i = i' ∧ j = j' := by
  have hii : i = i' := by
    rcases Nat.lt_trichotomy i i' with h1 | h1 | h1
    · exact absurd h (Nat.ne_of_lt (rowmajor_lt n i j i' j' hj h1))
    · exact h1
    · exact absurd h.symm (Nat.ne_of_lt (rowmajor_lt n i' j' i j hj' h1))
  subst hii
  exact ⟨rfl, Nat.add_left_cancel h⟩

/-- C4: the assembler starts from an all-zero `n*n` matrix and processes the
triples in sequence order, overwriting `cell[origin_rank*n + destination_rank]`,
so the final content of a cell is the value of the LAST triple mapping to
that (origin, destination) pair, with no accumulation; a cell no triple maps
to keeps the initial `0.0`. -/
theorem build_matrix_last_write_wins (data : List Triple) (all_zones : List Int) (i j : Nat)
    (hi : i < all_zones.length) (hj : j < all_zones.length) :
    (build_matrix data all_zones)[i * all_zones.length + j]? =
      some ((((data.filter (fun t => decide (zone_index all_zones t.1 = some i ∧
          zone_index all_zones t.2.1 = some j))).getLast?).map (fun t => t.2.2)).getD
        (F32.mk 0)) := by
  induction data using List.reverseRecOn with
  | nil =>
    unfold build_matrix
    have hb : i * all_zones.length + j < all_zones.length * all_zones.length := by
      simpa using rowmajor_lt all_zones.length i j all_zones.length 0 hj hi
    rw [List.foldl_nil, List.getElem?_replicate, if_pos hb]
    rfl
  | append_singleton data t ih =>
    rw [build_matrix_concat]
    cases h1 : zone_index all_zones t.1 with
    | none =>
      have hpred : decide (zone_index all_zones t.1 = some i ∧
          zone_index all_zones t.2.1 = some j) = false := by simp [h1]
      have happ : apply_triple all_zones.length (zone_index all_zones)
          (build_matrix data all_zones) t = build_matrix data all_zones := by
        unfold apply_triple
        rw [h1]
      rw [happ, List.filter_append]
      simp only [List.filter_cons, hpred, Bool.false_eq_true, if_false, List.filter_nil,
        List.append_nil]
      exact ih
    | some oi =>
      cases h2 : zone_index all_zones t.2.1 with
      | none =>
        have hpred : decide (zone_index all_zones t.1 = some i ∧
            zone_index all_zones t.2.1 = some j) = false := by simp [h2]
        have happ : apply_triple all_zones.length (zone_index all_zones)
            (build_matrix data all_zones) t = build_matrix data all_zones := by
          unfold apply_triple
          rw [h1, h2]
        rw [happ, List.filter_append]
        simp only [List.filter_cons, hpred, Bool.false_eq_true, if_false, List.filter_nil,
          List.append_nil]
        exact ih
      | some di =>
        have happ : apply_triple all_zones.length (zone_index all_zones)
            (build_matrix data all_zones) t =
            (build_matrix data all_zones).set (oi * all_zones.length + di) t.2.2 := by
          unfold apply_triple
          rw [h1, h2]
        rw [happ, List.filter_append]
        by_cases heq : oi = i ∧ di = j
        · obtain ⟨rfl, rfl⟩ := heq
          have hpred : decide (zone_index all_zones t.1 = some oi ∧
              zone_index all_zones t.2.1 = some di) = true := by simp [h1, h2]
          have hlen : oi * all_zones.length + di <
              (build_matrix data all_zones).length := by
            rw [build_matrix_length]
            simpa using rowmajor_lt all_zones.length oi di all_zones.length 0 hj hi
          simp only [List.filter_cons, hpred, if_true, List.filter_nil]
          rw [List.getElem?_set_self hlen, List.getLast?_concat]
          rfl
        · have hpred : decide (zone_index all_zones t.1 = some i ∧
              zone_index all_zones t.2.1 = some j) = false := by
            rw [h1, h2]
            simp only [Option.some_inj, decide_eq_false_iff_not]
            exact fun hc => heq ⟨hc.1, hc.2⟩
          have hdi : di < all_zones.length := zone_index_lt_length all_zones t.2.1 di h2
          have hne : oi * all_zones.length + di ≠ i * all_zones.length + j := by
            intro hc
            exact heq (rowmajor_index_inj all_zones.length oi di i j hdi hj hc)
          simp only [List.filter_cons, hpred, Bool.false_eq_true, if_false, List.filter_nil,
            List.append_nil]
          rw [List.getElem?_set_ne hne]
          exact ih

/-- Witness for C4 at the spec's last-write-wins example: sparse rows
`(1,2,5.0)` then `(1,2,9.0)` with zones `1, 2` leave `9.0` (bits
`0x41100000`) in `cell[0*2+1]`. -/
theorem build_matrix_last_write_wins_witness :
    (build_matrix [(1, 2, F32.mk 0x40A00000), (1, 2, F32.mk 0x41100000)] [1, 2])[1]? =
      some (F32.mk 0x41100000) := by
  have h := build_matrix_last_write_wins
    [(1, 2, F32.mk 0x40A00000), (1, 2, F32.mk 0x41100000)] [1, 2] 0 1 (by decide) (by decide)
  exact h.trans (by decide)

/-- C8: with no zone-authority file, the resolved `ZoneSet` is exactly the
set union of the origins and destinations of the triples, strictly ascending
with no duplicates, and the assembled matrix always has `n*n` cells for
`n = len(ZoneSet)`. -/
theorem zones_from_data_sorted_nodup (data : List Triple) :
    List.Sorted (fun a b => a < b) (get_all_zones none data)
    ∧ (∀ z : Int, z ∈ get_all_zones none data ↔ ∃ t ∈ data, z = t.1 ∨ z = t.2.1)
    ∧ ∀ (all_zones : List Int) (data2 : List Triple),
        (build_matrix data2 all_zones).length = all_zones.length * all_zones.length := by
  refine ⟨?_, ?_, fun all_zones data2 => build_matrix_length data2 all_zones⟩
  · apply List.Sorted.lt_of_le
    · exact List.sorted_insertionSort _ _
    · exact ((List.perm_insertionSort _ _).symm).nodup (List.nodup_dedup _)
  · intro z
    unfold get_all_zones get_all_zones_data
    rw [(List.perm_insertionSort _ _).mem_iff, List.mem_dedup, List.mem_flatMap]
    constructor
    · rintro ⟨t, ht, hz⟩
      refine ⟨t, ht, ?_⟩
      simpa [eq_comm] using hz
    · rintro ⟨t, ht, hz⟩
      refine ⟨t, ht, ?_⟩
      simpa [eq_comm] using hz

/-- C9: a triple whose origin or destination id is absent from the `ZoneSet`
is dropped silently by the assembler: removing it from the input leaves the
assembled matrix — and hence its dimension and every other cell — unchanged,
and the dimension is `n*n` regardless. -/
theorem build_matrix_drops_unresolvable (pre post : List Triple) (all_zones : List Int)
    (t : Triple) (habsent : t.1 ∉ all_zones ∨ t.2.1 ∉ all_zones) :
    build_matrix (pre ++ t :: post) all_zones = build_matrix (pre ++ post) all_zones
    ∧ (build_matrix (pre ++ t :: post) all_zones).length =
        all_zones.length * all_zones.length := by
  have hnone : zone_index all_zones t.1 = none ∨ zone_index all_zones t.2.1 = none :=
    habsent.imp (zone_index_eq_none_of_not_mem all_zones t.1)
      (zone_index_eq_none_of_not_mem all_zones t.2.1)
  have happ : ∀ m, apply_triple all_zones.length (zone_index all_zones) m t = m := by
    intro m
    unfold apply_triple
    rcases hnone with h | h
    · rw [h]
    · rw [h]
      rcases zone_index all_zones t.1 with _ | oi <;> rfl
  refine ⟨?_, build_matrix_length _ _⟩
  unfold build_matrix
  rw [List.foldl_append, List.foldl_append, List.foldl_cons, happ]

/-- Witness for C9 at the spec's dropped-reference scenario: the triple
`(99, 1, 5.0)` with zone `99` absent from the ZoneSet `1, 2` changes
nothing. -/
theorem build_matrix_drops_unresolvable_witness :
    build_matrix [(99, 1, F32.mk 0x40A00000), (1, 1, F32.mk 0x40000000)] [1, 2] =
      build_matrix [(1, 1, F32.mk 0x40000000)] [1, 2]
    ∧ (build_matrix [(99, 1, F32.mk 0x40A00000), (1, 1, F32.mk 0x40000000)] [1, 2]).length =
        ([1, 2] : List Int).length * ([1, 2] : List Int).length :=
  build_matrix_drops_unresolvable [] [(1, 1, F32.mk 0x40000000)] [1, 2]
    (99, 1, F32.mk 0x40A00000) (Or.inl (by decide))

/-- Counterexample to C7 as stated: the zone-authority reader does NOT read
the first field of every row — the default csv reader treats the first
record as a header and skips it.  For the two-row file whose rows are "5"
and "7" the code yields the zone list `7` alone, not the ascending sort of
`5, 7`. -/
theorem zones_file_header_counterexample :
    get_all_zones (some [[fieldI 5], [fieldI 7]]) [] = [7]
    ∧ get_all_zones (some [[fieldI 5], [fieldI 7]]) [] ≠
        List.insertionSort (fun a b => a ≤ b) [5, 7] := by decide

/-- C7 amended: with a zone-authority file, the resolver reads the first
field of every record after the first (header) record — records the csv
layer rejects or whose first field does not parse are dropped — and sorts
the parsed ids ascending WITHOUT deduplicating (the result is a permutation
of the parsed multiset, so each duplicate occupies its own rank), and the
zone-id-to-rank index maps each id to the rank of its last occurrence. -/
theorem zones_file_resolver (header : Row) (body : List Row) (data : List Triple)
    (all_zones : List Int) (z : Int) :
    (get_all_zones (some (header :: body)) data).Perm
        ((csv_ok_records header.length body).filterMap (fun r => r.head? >>= fun f => f.asI32))
    ∧ List.Sorted (fun a b => a ≤ b) (get_all_zones (some (header :: body)) data)
    ∧ zone_index all_zones z = spec_last_occurrence_rank all_zones z := by
  refine ⟨?_, ?_, zone_index_eq_spec all_zones z⟩
  · exact List.perm_insertionSort _ _
  · exact List.sorted_insertionSort _ _

end CsvToMtx
